import Mathlib

/-
  Verification of the tinyogg Ogg container implementation (src/ogg.rs).

  Shallow embedding conventions:
  * Byte buffers are modelled as List Nat whose elements are byte values.
  * Machine integers are Nat with explicit `% 2 ^ w` where the Rust code wraps.
  * 32-bit bitwise xor is modelled bit-by-bit by xorBits (structurally
    recursive, hence kernel-reducible), faithful to u32 xor for inputs < 2^32.
  * Fallible Rust functions return Except; io::ErrorKind is modelled by
    IoErrorKind and the concrete error values by RErr (with RErr.kind giving
    the ErrorKind the Rust code matches on).
  * A Rust operation that can panic (an out-of-bounds slice) is modelled by
    RustResult, whose third constructor marks the panic.
-/

set_option maxRecDepth 10000
set_option maxHeartbeats 1000000

namespace TinyOgg

/-- Read the byte at index i, as ogg_packet[i] does (0 past the end; all
    modelled call sites guard the bound as the Rust code does). -/
def byteAt (b : List Nat) (i : Nat) : Nat :=
  (b.drop i).headD 0

/-- Little-endian serialization of v into n bytes, as u64::to_le_bytes and
    u32::to_le_bytes produce. -/
def leBytes : Nat → Nat → List Nat
  | 0, _ => []
  | n + 1, v => v % 256 :: leBytes n (v / 256)

/-- Little-endian value of a byte list, as uN::from_le_bytes computes. -/
def leVal : List Nat → Nat
  | [] => 0
  | b :: bs => b + 256 * leVal bs

theorem leBytes_length (n v : Nat) : (leBytes n v).length = n := by
  induction n generalizing v with
  | zero => rfl
  | succ n ih => simp [leBytes, ih]

theorem leVal_leBytes (n v : Nat) : leVal (leBytes n v) = v % 2 ^ (8 * n) := by
  induction n generalizing v with
  | zero => simp [leBytes, leVal, Nat.mod_one]
  | succ n ih =>
    have h : (2 : Nat) ^ (8 * (n + 1)) = 256 * 2 ^ (8 * n) := by ring
    rw [leBytes, leVal, ih, h, Nat.mod_mul]

/-- Bitwise xor of the low k bits, computed bit by bit. -/
def xorBits : Nat → Nat → Nat → Nat
  | 0, _, _ => 0
  | k + 1, a, b => (if a % 2 + b % 2 = 1 then 1 else 0) + 2 * xorBits k (a / 2) (b / 2)

/-- 32-bit xor, the `^` of the Rust code on u32 values. -/
def xor32 (a b : Nat) : Nat := xorBits 32 a b

theorem xorBits_lt (k a b : Nat) : xorBits k a b < 2 ^ k := by
  induction k generalizing a b with
  | zero => simp [xorBits]
  | succ k ih =>
    have h := ih (a / 2) (b / 2)
    simp only [xorBits, pow_succ]
    split <;> omega

theorem xor32_lt (a b : Nat) : xor32 a b < 2 ^ 32 := xorBits_lt 32 a b

/-- One iteration of the CRC table generator:
    r = (r << 1) ^ (0x04c11db7 if bit 31 of r is set else 0), on u32. -/
def crcStep (r : Nat) : Nat :=
  xor32 (r * 2 % 2 ^ 32) (if r / 2 ^ 31 % 2 = 1 then 0x04c11db7 else 0)

/-- Iterate crcStep n times. -/
def crcSteps : Nat → Nat → Nat
  | 0, r => r
  | n + 1, r => crcSteps n (crcStep r)

/-- Entry i of the lazily generated 256-entry CRC lookup table
    (ogg_generate_crc_table seeds r = i << 24 and runs 8 iterations). -/
def crcTableEntry (i : Nat) : Nat := crcSteps 8 (i % 256 * 2 ^ 24)

/-- One byte of the running CRC:
    crc = (crc << 8) ^ table[b ^ (crc >> 24)], on u32. -/
def crcUpdate (crc b : Nat) : Nat :=
  xor32 (crc * 2 ^ 8 % 2 ^ 32) (crcTableEntry (xor32 b (crc / 2 ^ 24)))

/-- OggPacket::crc: fold crcUpdate over the data bytes. -/
def crc (init : Nat) (data : List Nat) : Nat := data.foldl crcUpdate init

theorem crcUpdate_lt (c b : Nat) : crcUpdate c b < 2 ^ 32 := xor32_lt _ _

theorem crc_lt (init : Nat) (data : List Nat) (h : init < 2 ^ 32) :
    crc init data < 2 ^ 32 := by
  induction data generalizing init with
  | nil => exact h
  | cons b bs ih =>
    have hh : crc init (b :: bs) = crc (crcUpdate init b) bs := by
      simp only [crc, List.foldl_cons]
    rw [hh]
    exact ih _ (crcUpdate_lt _ _)

/-- The three representable packet type codes. -/
inductive OggPacketType where
  | Continuation
  | BeginOfStream
  | EndOfStream
deriving DecidableEq

/-- The wire code of a packet type (the Rust enum discriminants 0, 2, 4). -/
def typeCode : OggPacketType → Nat
  | .Continuation => 0
  | .BeginOfStream => 2
  | .EndOfStream => 4

/-- Decode a packet type byte; the match 0 | 2 | 4 of the Rust parser. -/
def decodeType : Nat → Option OggPacketType
  | 0 => some .Continuation
  | 2 => some .BeginOfStream
  | 4 => some .EndOfStream
  | _ => none

theorem decodeType_typeCode (t : OggPacketType) : decodeType (typeCode t) = some t := by
  cases t <;> rfl

/-- The OggPacket struct of src/ogg.rs. -/
structure OggPacket where
  version : Nat
  packet_type : OggPacketType
  granule_position : Nat
  stream_id : Nat
  packet_index : Nat
  checksum : Nat
  segment_table : List Nat
  data : List Nat
deriving DecidableEq

/-- OggPacket::new. -/
def OggPacket.new (stream_id : Nat) (packet_type : OggPacketType) (packet_index : Nat) :
    OggPacket :=
  ⟨0, packet_type, 0, stream_id, packet_index, 0, [], []⟩

/-- The Default impl for OggPacket (what mem::take leaves behind). -/
def OggPacket.default : OggPacket :=
  ⟨0, .BeginOfStream, 0, 0, 0, 0, [], []⟩

/-- io::ErrorKind values distinguished by the code. -/
inductive IoErrorKind where
  | interrupted
  | unexpectedEof
  | invalidData
  | other
deriving DecidableEq

/-- The concrete error values the code creates, tagged by site. -/
inductive RErr where
  /-- get_length / from_bytes: fewer than 27 bytes (ErrorKind::UnexpectedEof). -/
  | tooSmallHeader
  /-- bad magic (ErrorKind::InvalidData). -/
  | badMagic
  /-- non-zero version byte (ErrorKind::InvalidData). -/
  | badVersion
  /-- packet type byte not 0, 2 or 4 (ErrorKind::InvalidData). -/
  | badType
  /-- from_bytes: data_start exceeds the buffer (ErrorKind::UnexpectedEof). -/
  | truncatedSegTable
  /-- from_bytes: payload shorter than announced (ErrorKind::UnexpectedEof). -/
  | truncatedPayload
  /-- from_bytes: stored checksum disagrees (ErrorKind::InvalidData). -/
  | checksumMismatch
  /-- get_checksum: fewer than 27 bytes (ErrorKind::InvalidData). -/
  | checksumInputTooSmall
  /-- an error propagated from the underlying reader. -/
  | ioError (k : IoErrorKind)
deriving DecidableEq

/-- The ErrorKind the Rust code attached to each error value. -/
def RErr.kind : RErr → IoErrorKind
  | .tooSmallHeader => .unexpectedEof
  | .badMagic => .invalidData
  | .badVersion => .invalidData
  | .badType => .invalidData
  | .truncatedSegTable => .unexpectedEof
  | .truncatedPayload => .unexpectedEof
  | .checksumMismatch => .invalidData
  | .checksumInputTooSmall => .invalidData
  | .ioError k => k

/-- Result of a Rust function that may also panic (out-of-bounds slice). -/
inductive RustResult (α : Type) where
  | ok (a : α)
  | err (e : RErr)
  | panicked
deriving DecidableEq

/-- The 4 magic bytes b"OggS". -/
def oggMagic : List Nat := [0x4f, 0x67, 0x67, 0x53]

/-- The serialized page with checksum field c: magic, version, type code,
    granule position (8 LE bytes), stream id (4), packet index (4),
    checksum (4), segment count, segment table, payload. -/
def wire (p : OggPacket) (c : Nat) : List Nat :=
  oggMagic ++ [p.version, typeCode p.packet_type] ++
    leBytes 8 p.granule_position ++ leBytes 4 p.stream_id ++
    leBytes 4 p.packet_index ++ leBytes 4 c ++
    [p.segment_table.length % 256] ++ p.segment_table ++ p.data

/-- The buffer built inside OggPacket::into_bytes before the checksum is
    patched in (the checksum field holds 0u32.to_le_bytes()). -/
def raw_bytes (p : OggPacket) : List Nat := wire p 0

/-- Overwrite bytes 22..26 with the little-endian checksum c
    (ogg_packet[22..26].copy_from_slice(&checksum.to_le_bytes())). -/
def setChecksumBytes (b : List Nat) (c : Nat) : List Nat :=
  b.take 22 ++ leBytes 4 c ++ b.drop 26

/-- The checksum value OggPacket::get_checksum computes once the length
    guard has passed: CRC of the buffer with bytes 22..26 zeroed. -/
def checksumOf (b : List Nat) : Nat := crc 0 (setChecksumBytes b 0)

/-- OggPacket::get_checksum. -/
def OggPacket.get_checksum (b : List Nat) : Except RErr Nat :=
  if b.length < 27 then .error .checksumInputTooSmall
  else .ok (checksumOf b)

/-- OggPacket::into_bytes: serialize with a zero checksum field, then patch
    the computed checksum in (the unwrap cannot fail: the buffer always has
    at least 27 bytes). -/
def OggPacket.into_bytes (p : OggPacket) : List Nat :=
  setChecksumBytes (raw_bytes p) (checksumOf (raw_bytes p))

/-- OggPacket::get_length. The segment-table slice ogg_packet[27..data_start]
    panics when data_start exceeds the buffer length; that panic is the
    RustResult.panicked outcome. -/
def OggPacket.get_length (b : List Nat) : RustResult Nat :=
  if b.length < 27 then .err .tooSmallHeader
  else if ¬(b.take 4 = oggMagic) then .err .badMagic
  else if ¬(byteAt b 4 = 0) then .err .badVersion
  else
    match decodeType (byteAt b 5) with
    | none => .err .badType
    | some _ =>
      let num_segments := byteAt b 26
      let data_start := 27 + num_segments
      if b.length < data_start then .panicked
      else .ok (data_start + ((b.drop 27).take num_segments).sum)

/-- OggPacket::from_bytes. The second argument is the incoming value of the
    packet_length out-parameter; the second component of the result is its
    final value (it is assigned only after the segment table is known to be
    fully present). -/
def OggPacket.from_bytes (b : List Nat) (packet_length : Nat) :
    Except RErr OggPacket × Nat :=
  if b.length < 27 then (.error .tooSmallHeader, packet_length)
  else if ¬(b.take 4 = oggMagic) then (.error .badMagic, packet_length)
  else if ¬(byteAt b 4 = 0) then (.error .badVersion, packet_length)
  else
    match decodeType (byteAt b 5) with
    | none => (.error .badType, packet_length)
    | some pt =>
      let num_segments := byteAt b 26
      let data_start := 27 + num_segments
      if b.length < data_start then (.error .truncatedSegTable, packet_length)
      else
        let segment_table := (b.drop 27).take num_segments
        let data_length := segment_table.sum
        let pl := data_start + data_length
        if b.length < pl then (.error .truncatedPayload, pl)
        else
          let ret : OggPacket :=
            ⟨0, pt, leVal ((b.drop 6).take 8), leVal ((b.drop 14).take 4),
              leVal ((b.drop 18).take 4), leVal ((b.drop 22).take 4),
              segment_table, (b.drop data_start).take data_length⟩
          if ¬(ret.checksum = checksumOf (b.take pl)) then (.error .checksumMismatch, pl)
          else (.ok ret, pl)

/-- The while loop of OggPacket::write, acting on the segment table and data
    of the packet, with buf the not-yet-consumed suffix of the caller buffer.
    Returns the new segment table, the new data, and the number of bytes
    consumed. Each ≥255-byte step pushes a 255 segment and recurses on the
    rest; a final short chunk pushes one segment and stops; the loop also
    stops when the buffer is empty. The guard (segment_table.len() < 255) is
    embedded as the first argument, the remaining segment capacity: the
    caller passes 255 - segment_table.length, each iteration pushes exactly
    one segment, and the budget hitting 0 is the guard turning false. -/
def writeLoop : Nat → List Nat → List Nat → List Nat → List Nat × List Nat × Nat
  | 0, segment_table, data, _ => (segment_table, data, 0)
  | n + 1, segment_table, data, buf =>
    if 255 ≤ buf.length then
      match writeLoop n (segment_table ++ [255]) (data ++ buf.take 255) (buf.drop 255) with
      | (st, d, w) => (st, d, w + 255)
    else if buf.length = 0 then (segment_table, data, 0)
    else (segment_table ++ [buf.length], data ++ buf, buf.length)

/-- OggPacket::write: returns the updated packet and the number of bytes
    actually written (the early return for an empty buffer included). -/
def OggPacket.write (p : OggPacket) (buf : List Nat) : OggPacket × Nat :=
  if buf.length = 0 then (p, 0)
  else
    match writeLoop (255 - p.segment_table.length) p.segment_table p.data buf with
    | (st, d, w) => ({ p with segment_table := st, data := d }, w)

/-- OggPacket::get_inner_data_size: the sum of the segment table entries. -/
def OggPacket.get_inner_data_size (p : OggPacket) : Nat := p.segment_table.sum

/-- Full characterization of the write loop, by induction on the remaining
    segment-table capacity n: with room for n more segments, a buffer of L
    bytes is either cut into n full 255-byte segments (when 255*n ≤ L) or
    fully absorbed as L/255 full segments plus one final segment of L%255
    bytes when that remainder is non-zero. -/
theorem writeLoop_spec (n : Nat) : ∀ st dat buf : List Nat,
    writeLoop n st dat buf =
      if 255 * n ≤ buf.length then
        (st ++ List.replicate n 255, dat ++ buf.take (255 * n), 255 * n)
      else
        (st ++ List.replicate (buf.length / 255) 255 ++
            (if buf.length % 255 = 0 then [] else [buf.length % 255]),
          dat ++ buf, buf.length) := by
  induction n with
  | zero =>
    intro st dat buf
    rw [writeLoop, if_pos (by omega)]
    simp
  | succ n ih =>
    intro st dat buf
    rw [writeLoop]
    by_cases h255 : 255 ≤ buf.length
    · rw [if_pos h255, ih (st ++ [255]) (dat ++ buf.take 255) (buf.drop 255)]
      by_cases hbig : 255 * (n + 1) ≤ buf.length
      · rw [if_pos (by simp only [List.length_drop]; omega), if_pos hbig]
        simp only [Prod.mk.injEq]
        refine ⟨?_, ?_, by ring⟩
        · simp [List.append_assoc, List.replicate_succ]
        · rw [show 255 * (n + 1) = 255 + 255 * n by ring, List.take_add]
          simp [List.append_assoc]
      · rw [if_neg (by simp only [List.length_drop]; omega), if_neg hbig]
        have hdiv : (buf.length - 255) / 255 + 1 = buf.length / 255 := by omega
        have hmod : (buf.length - 255) % 255 = buf.length % 255 := by omega
        simp only [List.length_drop, Prod.mk.injEq, hmod]
        refine ⟨?_, ?_, by omega⟩
        · rw [← hdiv]
          simp [List.append_assoc, List.replicate_succ]
        · simp [List.append_assoc]
    · rw [if_neg h255]
      by_cases h0 : buf.length = 0
      · have hnil : buf = [] := List.length_eq_zero.mp h0
        rw [if_pos h0, if_neg (by omega)]
        simp [hnil]
      · rw [if_neg h0, if_neg (by omega)]
        have hd : buf.length / 255 = 0 := Nat.div_eq_of_lt (by omega)
        have hm : buf.length % 255 = buf.length := Nat.mod_eq_of_lt (by omega)
        simp [hd, hm, h0]

theorem wire_take4 (p : OggPacket) (c : Nat) : (wire p c).take 4 = oggMagic := rfl

theorem wire_byteAt4 (p : OggPacket) (c : Nat) : byteAt (wire p c) 4 = p.version := rfl

theorem wire_byteAt5 (p : OggPacket) (c : Nat) :
    byteAt (wire p c) 5 = typeCode p.packet_type := rfl

theorem wire_byteAt26 (p : OggPacket) (c : Nat) :
    byteAt (wire p c) 26 = p.segment_table.length % 256 := rfl

theorem wire_drop6_take8 (p : OggPacket) (c : Nat) :
    ((wire p c).drop 6).take 8 = leBytes 8 p.granule_position := rfl

theorem wire_drop14_take4 (p : OggPacket) (c : Nat) :
    ((wire p c).drop 14).take 4 = leBytes 4 p.stream_id := rfl

theorem wire_drop18_take4 (p : OggPacket) (c : Nat) :
    ((wire p c).drop 18).take 4 = leBytes 4 p.packet_index := rfl

theorem wire_drop22_take4 (p : OggPacket) (c : Nat) :
    ((wire p c).drop 22).take 4 = leBytes 4 c := rfl

theorem wire_drop27 (p : OggPacket) (c : Nat) :
    (wire p c).drop 27 = p.segment_table ++ p.data := rfl

theorem setChecksum_wire (p : OggPacket) (c x : Nat) :
    setChecksumBytes (wire p c) x = wire p x := rfl

theorem checksumOf_raw (p : OggPacket) : checksumOf (raw_bytes p) = crc 0 (wire p 0) := by
  simp only [checksumOf, raw_bytes, setChecksum_wire]

theorem into_bytes_wire (p : OggPacket) :
    OggPacket.into_bytes p = wire p (crc 0 (wire p 0)) := by
  rw [OggPacket.into_bytes, checksumOf_raw, raw_bytes, setChecksum_wire]

theorem wire_length (p : OggPacket) (c : Nat) :
    (wire p c).length = 27 + p.segment_table.length + p.data.length := by
  simp [wire, oggMagic, leBytes_length]
  omega

/-- Evaluation of write on a fresh (empty) page, by the loop
    characterization: the chunked segment table and consumed byte count. -/
theorem write_new_spec (sid idx : Nat) (t : OggPacketType) (buf : List Nat) :
    (OggPacket.new sid t idx).write buf =
      if buf.length = 0 then (OggPacket.new sid t idx, 0)
      else if 255 * 255 ≤ buf.length then
        ({ OggPacket.new sid t idx with
            segment_table := List.replicate 255 255
            data := buf.take (255 * 255) }, 255 * 255)
      else
        ({ OggPacket.new sid t idx with
            segment_table := List.replicate (buf.length / 255) 255 ++
              (if buf.length % 255 = 0 then [] else [buf.length % 255])
            data := buf }, buf.length) := by
  have hw := writeLoop_spec 255 [] [] buf
  unfold OggPacket.write
  rw [show 255 - (OggPacket.new sid t idx).segment_table.length = 255 from rfl,
    show (OggPacket.new sid t idx).segment_table = [] from rfl,
    show (OggPacket.new sid t idx).data = [] from rfl, hw]
  by_cases h0 : buf.length = 0
  · rw [if_pos h0, if_pos h0]
  · rw [if_neg h0, if_neg h0]
    by_cases hbig : 255 * 255 ≤ buf.length
    · rw [if_pos hbig, if_pos hbig]
      simp [OggPacket.new]
    · rw [if_neg hbig, if_neg hbig]
      simp [OggPacket.new]

/-- C8 (amended): writing an N-byte payload to an empty page consumes
    min(N, 65025) bytes; for N up to 65025 the segment table becomes N/255
    entries of 255 followed by one entry of N%255 when that remainder is
    non-zero (and nothing otherwise); for N beyond 65025 the table is 255
    entries of 255 (the claimed trailing remainder entry does not appear,
    because the table is already full). -/
theorem C8_chunking_law (sid idx : Nat) (t : OggPacketType) (buf : List Nat) :
    ((OggPacket.new sid t idx).write buf).2 = min buf.length 65025 ∧
    ((OggPacket.new sid t idx).write buf).1.segment_table =
      (if buf.length ≤ 65025 then
        List.replicate (buf.length / 255) 255 ++
          (if buf.length % 255 = 0 then [] else [buf.length % 255])
      else List.replicate 255 255) := by
  rw [write_new_spec]
  by_cases h0 : buf.length = 0
  · rw [if_pos h0]
    exact ⟨by simp [h0], by simp [OggPacket.new, h0]⟩
  · rw [if_neg h0]
    by_cases hbig : 255 * 255 ≤ buf.length
    · rw [if_pos hbig]
      refine ⟨by simp; omega, ?_⟩
      by_cases hle : buf.length ≤ 65025
      · have hexact : buf.length = 65025 := by omega
        rw [if_pos hle, hexact]
        simp
      · rw [if_neg hle]
    · rw [if_neg hbig]
      have hle : buf.length ≤ 65025 := by omega
      refine ⟨by simp; omega, ?_⟩
      rw [if_pos hle]

/-- Writing more than 65025 bytes to an empty page fills the segment table
    with exactly 255 entries of 255. -/
theorem write_overfull (sid idx : Nat) (t : OggPacketType) (buf : List Nat)
    (hbig : 65025 < buf.length) :
    ((OggPacket.new sid t idx).write buf).1.segment_table = List.replicate 255 255 := by
  rw [write_new_spec, if_neg (by omega), if_pos (by omega)]

/-- C8: counterexample to the claim as stated. For N = 65026 = 255*255 + 1
    (k = 255, r = 1) the claim says the segment table is 255 entries of 255
    followed by one entry of 1; the code stops at 255 table entries, so the
    trailing entry never appears. -/
theorem C8_counterexample :
    ¬(((OggPacket.new 0 .BeginOfStream 0).write (List.replicate 65026 0)).1.segment_table =
        List.replicate 255 255 ++ [1]) := by
  intro h
  rw [write_overfull 0 0 .BeginOfStream _ (by rw [List.length_replicate]; omega)] at h
  have hlen2 := congrArg List.length h
  simp at hlen2

/-- Decoding a serialized page with checksum field c recovers every field,
    provided the segment table fits in the count byte, the numeric fields fit
    their wire widths, the data length matches the segment table sum, and c
    is the checksum the serializer would have patched in. The checksum field
    of the decoded packet is c itself. -/
theorem from_bytes_mk (q0 : Nat) (pt : OggPacketType) (g sid idx ck c : Nat)
    (st d : List Nat)
    (hL : st.length ≤ 255) (hg : g < 2 ^ 64) (hs : sid < 2 ^ 32) (hi : idx < 2 ^ 32)
    (hd : d.length = st.sum)
    (hc : c = crc 0 (wire ⟨0, pt, g, sid, idx, ck, st, d⟩ 0)) :
    OggPacket.from_bytes (wire ⟨0, pt, g, sid, idx, ck, st, d⟩ c) q0 =
      (Except.ok ⟨0, pt, g, sid, idx, c, st, d⟩, 27 + st.length + d.length) := by
  have hclt : c < 2 ^ 32 := hc ▸ crc_lt 0 _ (by norm_num)
  have hlen : (wire ⟨0, pt, g, sid, idx, ck, st, d⟩ c).length = 27 + st.length + d.length := by
    rw [wire_length]
  have hdata : (wire ⟨0, pt, g, sid, idx, ck, st, d⟩ c).drop (27 + st.length) = d := by
    rw [← List.drop_drop, wire_drop27 ⟨0, pt, g, sid, idx, ck, st, d⟩ c, List.drop_left]
  unfold OggPacket.from_bytes
  rw [if_neg (by rw [hlen]; omega),
    if_neg (not_not_intro (wire_take4 ⟨0, pt, g, sid, idx, ck, st, d⟩ c)),
    if_neg (not_not_intro (wire_byteAt4 ⟨0, pt, g, sid, idx, ck, st, d⟩ c)),
    wire_byteAt5, decodeType_typeCode]
  dsimp only
  rw [wire_byteAt26]
  dsimp only
  rw [Nat.mod_eq_of_lt (show st.length < 256 by omega),
    wire_drop27 ⟨0, pt, g, sid, idx, ck, st, d⟩ c, List.take_left,
    if_neg (by rw [hlen]; omega),
    if_neg (by rw [hlen]; omega)]
  rw [hdata, ← hd, List.take_length,
    wire_drop6_take8, wire_drop14_take4, wire_drop18_take4, wire_drop22_take4,
    leVal_leBytes, leVal_leBytes, leVal_leBytes, leVal_leBytes]
  dsimp only
  rw [Nat.mod_eq_of_lt (show g < 2 ^ (8 * 8) from hg),
    Nat.mod_eq_of_lt (show sid < 2 ^ (8 * 4) from hs),
    Nat.mod_eq_of_lt (show idx < 2 ^ (8 * 4) from hi),
    Nat.mod_eq_of_lt (show c < 2 ^ (8 * 4) from hclt)]
  rw [← hlen, List.take_length]
  rw [show checksumOf (wire ⟨0, pt, g, sid, idx, ck, st, d⟩ c) = c by
      rw [checksumOf, setChecksum_wire, hc]]
  rw [if_neg (not_not_intro rfl)]

/-- C7 (amended): decoding a serialized page succeeds and recovers version,
    packet type, granule position, stream id, packet index, segment table
    and payload exactly; the checksum field of the decoded page is the
    checksum computed at serialization time (crc of the page with a zeroed
    checksum field), which agrees with the checksum field of the original page
    only when that field already held this value. The consumed length is the
    whole encoded page. -/
theorem C7_roundtrip (p : OggPacket) (q0 : Nat)
    (hv : p.version = 0)
    (hL : p.segment_table.length ≤ 255)
    (hg : p.granule_position < 2 ^ 64)
    (hs : p.stream_id < 2 ^ 32)
    (hi : p.packet_index < 2 ^ 32)
    (hd : p.data.length = p.segment_table.sum) :
    OggPacket.from_bytes (OggPacket.into_bytes p) q0 =
      (Except.ok { p with checksum := checksumOf (raw_bytes p) },
        27 + p.segment_table.length + p.data.length) := by
  obtain ⟨v, pt, g, sid, idx, ck, st, d⟩ := p
  dsimp only at hv hL hg hs hi hd ⊢
  subst hv
  rw [into_bytes_wire, checksumOf_raw]
  exact from_bytes_mk q0 pt g sid idx ck _ st d hL hg hs hi hd rfl

/-- A minimal valid page: an empty Continuation page with all-zero fields. -/
def c7Page : OggPacket := ⟨0, .Continuation, 0, 0, 0, 0, [], []⟩

/-- C7 witness: the amended roundtrip at the minimal page. -/
theorem C7_roundtrip_witness :
    OggPacket.from_bytes (OggPacket.into_bytes c7Page) 0 =
      (Except.ok { c7Page with checksum := checksumOf (raw_bytes c7Page) },
        27 + c7Page.segment_table.length + c7Page.data.length) :=
  C7_roundtrip c7Page 0 rfl (by decide) (by decide) (by decide) (by decide) rfl

/-- A minimal page whose checksum field holds a stale value (1). -/
def c7Bad : OggPacket := ⟨0, .Continuation, 0, 0, 0, 1, [], []⟩

deriving instance DecidableEq for Except

/-- C7: counterexample to the claim as stated. The decoded page is not equal
    field-for-field to the original: serialization recomputes the checksum,
    so decoding returns the recomputed checksum (not the stale 1 stored in
    the checksum field of the original page). -/
theorem C7_counterexample :
    ¬((OggPacket.from_bytes (OggPacket.into_bytes c7Bad) 0).1 = Except.ok c7Bad) := by
  decide

/-- True exactly on the Ok constructor. -/
def exceptOk {α : Type} (r : Except RErr α) : Bool :=
  match r with
  | .ok _ => true
  | .error _ => false

/-- When every length and header check passes, the out-parameter of
    from_bytes ends up holding the complete page length, whether or not the
    checksum comparison succeeds. -/
theorem from_bytes_snd_of (b : List Nat) (q0 : Nat) (pt : OggPacketType)
    (e1 : ¬b.length < 27) (e2 : b.take 4 = oggMagic) (e3 : byteAt b 4 = 0)
    (hpt : decodeType (byteAt b 5) = some pt)
    (e4 : ¬b.length < 27 + byteAt b 26)
    (e5 : ¬b.length < 27 + byteAt b 26 + ((b.drop 27).take (byteAt b 26)).sum) :
    (OggPacket.from_bytes b q0).2 =
      27 + byteAt b 26 + ((b.drop 27).take (byteAt b 26)).sum := by
  unfold OggPacket.from_bytes
  rw [if_neg e1, if_neg (not_not_intro e2), if_neg (not_not_intro e3), hpt]
  dsimp only
  rw [if_neg e4, if_neg e5]
  split <;> rfl

/-- C9: whenever the full decode succeeds on a buffer, the length probe
    succeeds on the same buffer and returns exactly the consumed length the
    decode reported through its out-parameter. -/
theorem C9_probe_decode_agree (b : List Nat) (q0 : Nat)
    (h : exceptOk (OggPacket.from_bytes b q0).1 = true) :
    OggPacket.get_length b = RustResult.ok ((OggPacket.from_bytes b q0).2) := by
  unfold OggPacket.from_bytes at h
  by_cases e1 : b.length < 27
  · rw [if_pos e1] at h
    simp [exceptOk] at h
  · rw [if_neg e1] at h
    by_cases e2 : ¬(b.take 4 = oggMagic)
    · rw [if_pos e2] at h
      simp [exceptOk] at h
    · rw [if_neg e2] at h
      by_cases e3 : ¬(byteAt b 4 = 0)
      · rw [if_pos e3] at h
        simp [exceptOk] at h
      · rw [if_neg e3] at h
        cases hpt : decodeType (byteAt b 5) with
        | none =>
          rw [hpt] at h
          simp [exceptOk] at h
        | some pt =>
          rw [hpt] at h
          dsimp only at h
          by_cases e4 : b.length < 27 + byteAt b 26
          · rw [if_pos e4] at h
            simp [exceptOk] at h
          · rw [if_neg e4] at h
            by_cases e5 : b.length <
                27 + byteAt b 26 + ((b.drop 27).take (byteAt b 26)).sum
            · rw [if_pos e5] at h
              simp [exceptOk] at h
            · rw [from_bytes_snd_of b q0 pt e1 (not_not.mp e2) (not_not.mp e3) hpt e4 e5]
              unfold OggPacket.get_length
              rw [if_neg e1, if_neg (not_not_intro (not_not.mp e2)),
                if_neg (not_not_intro (not_not.mp e3)), hpt]
              dsimp only
              rw [if_neg e4]

/-- C9 witness: a concrete successful decode on which the probe agrees. -/
theorem C9_witness :
    exceptOk (OggPacket.from_bytes (OggPacket.into_bytes c7Page) 0).1 = true ∧
    OggPacket.get_length (OggPacket.into_bytes c7Page) =
      RustResult.ok ((OggPacket.from_bytes (OggPacket.into_bytes c7Page) 0).2) :=
  ⟨by decide, C9_probe_decode_agree _ 0 (by decide)⟩

/-- C10: when the header checks pass and the segment table is fully present
    (27 + N bytes available, N the count byte at offset 26) but the payload
    is truncated, from_bytes returns the truncation error with the
    out-parameter set to the complete required page length 27 + N + sum of
    the table entries; and whenever even the header or the segment table is
    incomplete, the out-parameter keeps its incoming value. -/
theorem C10_out_param (b : List Nat) (q0 : Nat) :
    ((b.take 4 = oggMagic) → (byteAt b 4 = 0) →
      ((decodeType (byteAt b 5)).isSome = true) →
      27 + byteAt b 26 ≤ b.length →
      b.length < 27 + byteAt b 26 + ((b.drop 27).take (byteAt b 26)).sum →
      OggPacket.from_bytes b q0 =
        (Except.error RErr.truncatedPayload,
          27 + byteAt b 26 + ((b.drop 27).take (byteAt b 26)).sum)) ∧
    (b.length < 27 + byteAt b 26 → (OggPacket.from_bytes b q0).2 = q0) := by
  constructor
  · intro h1 h2 h3 h4 h5
    obtain ⟨pt, hpt⟩ := Option.isSome_iff_exists.mp h3
    unfold OggPacket.from_bytes
    rw [if_neg (by omega), if_neg (not_not_intro h1), if_neg (not_not_intro h2), hpt]
    dsimp only
    rw [if_neg (by omega), if_pos h5]
  · intro h
    unfold OggPacket.from_bytes
    by_cases e1 : b.length < 27
    · rw [if_pos e1]
    · rw [if_neg e1]
      by_cases e2 : ¬(b.take 4 = oggMagic)
      · rw [if_pos e2]
      · rw [if_neg e2]
        by_cases e3 : ¬(byteAt b 4 = 0)
        · rw [if_pos e3]
        · rw [if_neg e3]
          cases hpt : decodeType (byteAt b 5) with
          | none => rfl
          | some pt =>
            dsimp only
            rw [if_pos h]

/-- A 27-byte buffer that passes every header check and announces a 1-entry
    segment table it does not carry. -/
def c4Input : List Nat := oggMagic ++ [0, 0] ++ List.replicate 20 0 ++ [1]

/-- C4: the code panics instead of failing with a too-small error. On a
    27-byte buffer that passes the magic, version and packet-type checks
    and whose count byte announces a 1-entry segment table, the slice
    ogg_packet[27..data_start] is out of range and get_length panics,
    where the claim (and the parallel check in from_bytes) require an
    error result. -/
theorem C4_get_length_panics : OggPacket.get_length c4Input = RustResult.panicked := by
  decide

/-- Header-and-count bytes of a page announcing a 1-entry table with a
    5-byte payload, but carrying only the table byte: 28 bytes in all. -/
def c10Bytes : List Nat := oggMagic ++ [0, 0] ++ List.replicate 20 0 ++ [1, 5]

/-- A buffer shorter than the fixed header. -/
def c10Short : List Nat := List.replicate 10 7

/-- C10 witness: the out-parameter behaviour at concrete inputs for both
    halves of the property. -/
theorem C10_witness :
    OggPacket.from_bytes c10Bytes 0 = (Except.error RErr.truncatedPayload, 33) ∧
    (OggPacket.from_bytes c10Short 3).2 = 3 :=
  ⟨(C10_out_param c10Bytes 0).1 (by decide) (by decide) (by decide) (by decide) (by decide),
    (C10_out_param c10Short 3).2 (by decide)⟩

/-- One result of a read call on the underlying byte source: either a chunk
    of bytes (empty meaning the source is exhausted) or an io error of some
    kind. Of a chunk larger than the space the reader asks for, only that
    much is consumed, the remainder staying at the front of the source. -/
inductive Event where
  | bytes (b : List Nat)
  | err (k : IoErrorKind)
deriving DecidableEq

/-- The while loop of OggStreamReader::safe_read over a source modelled as a
    list of read results. Arguments: the source, the remaining number of
    bytes wanted (target_len - bytes_read), and the bytes read so far.
    Returns the result (Ok with the bytes collected, or the propagated
    error) and the rest of the source. A full read exits the loop because
    bytes_read reaches target_len; interrupted errors retry; UnexpectedEof
    and a zero-length read break; any other error breaks when bytes were
    already read and is returned otherwise. -/
def safe_read_loop : List Event → Nat → List Nat → Except IoErrorKind (List Nat) × List Event
  | src, 0, acc => (.ok acc, src)
  | [], _ + 1, acc => (.ok acc, [])
  | .bytes b :: rest, remaining + 1, acc =>
    if b = [] then (.ok acc, rest)
    else if b.length ≤ remaining + 1 then
      safe_read_loop rest (remaining + 1 - b.length) (acc ++ b)
    else
      (.ok (acc ++ b.take (remaining + 1)), .bytes (b.drop (remaining + 1)) :: rest)
  | .err k :: rest, remaining + 1, acc =>
    match k with
    | .interrupted => safe_read_loop rest (remaining + 1) acc
    | .unexpectedEof => (.ok acc, rest)
    | _ => if acc = [] then (.error k, rest) else (.ok acc, rest)

/-- OggStreamReader::safe_read. -/
def safe_read (src : List Event) (target_len : Nat) :
    Except IoErrorKind (List Nat) × List Event :=
  safe_read_loop src target_len []

/-- The OggStreamReader state: the wrapped source, the (never updated)
    stream_id field, the two flags and the byte cache. -/
structure ReaderState where
  reader : List Event
  stream_id : Nat
  e_o_s : Bool
  e_o_f : Bool
  cached_bytes : List Nat
deriving DecidableEq

/-- OggStreamReader::new. -/
def OggStreamReader.new (reader : List Event) : ReaderState :=
  ⟨reader, 0, false, false, []⟩

/-- OggStreamReader::READ_SIZE. -/
def READ_SIZE : Nat := 2048

/-- OggStreamReader::get_packet, with explicit recursion fuel: the Rust
    function calls itself after refilling the cache and can recurse without
    bound against a source that keeps answering full reads, so the embedding
    returns none when the fuel runs out. -/
def get_packet : Nat → ReaderState → Option (Except RErr (Option OggPacket) × ReaderState)
  | 0, _ => none
  | fuel + 1, st =>
    match OggPacket.from_bytes st.cached_bytes 0 with
    | (.ok packet, packet_length) =>
      some (.ok (some packet),
        { st with
          e_o_s := if packet.packet_type = .EndOfStream then true else false,
          cached_bytes := st.cached_bytes.drop packet_length })
    | (.error e, packet_length) =>
      if e.kind = .unexpectedEof then
        if st.e_o_s then some (.ok none, st)
        else
          let to_read := max packet_length READ_SIZE
          match safe_read st.reader to_read with
          | (.error k, r2) => some (.error (.ioError k), { st with reader := r2 })
          | (.ok read, r2) =>
            let st2 := { st with reader := r2, cached_bytes := st.cached_bytes ++ read }
            if read.length < to_read then
              if st2.e_o_f = false then get_packet fuel { st2 with e_o_f := true }
              else if read.length = 0 then some (.ok none, st2)
              else some (.error e, st2)
            else get_packet fuel st2
      else some (.error e, st)

/-- The amended C6 property of one safe_read loop run: if an error comes
    out, then no bytes had been read in this refill, its kind is neither
    interrupted nor UnexpectedEof, and it is an error the source produced. -/
def c6check (src : List Event) (target_len : Nat) (acc : List Nat) : Bool :=
  match safe_read_loop src target_len acc with
  | (.error k, _) =>
    acc.isEmpty && !(decide (k = .interrupted)) && !(decide (k = .unexpectedEof)) &&
      decide (Event.err k ∈ src)
  | (.ok _, _) => true

/-- C6 (amended): safe_read never surfaces interrupted conditions (they are
    retried) nor UnexpectedEof errors (treated as end of data), and it
    surfaces another error kind, unchanged from the source, only when no
    bytes at all were read in that refill; once at least one byte has been
    read, every error is swallowed and the data so far returned as Ok. -/
theorem C6_error_surfacing (src : List Event) : ∀ (target_len : Nat) (acc : List Nat),
    c6check src target_len acc = true := by
  induction src with
  | nil =>
    intro t acc
    cases t <;> simp [c6check, safe_read_loop]
  | cons e rest ih =>
    intro t acc
    cases t with
    | zero => simp [c6check, safe_read_loop]
    | succ n =>
      cases e with
      | bytes b =>
        by_cases hb : b = []
        · simp [c6check, safe_read_loop, hb]
        · by_cases hlen : b.length ≤ n + 1
          · have hrec := ih (n + 1 - b.length) (acc ++ b)
            unfold c6check at hrec ⊢
            rw [safe_read_loop, if_neg hb, if_pos hlen]
            cases hres : safe_read_loop rest (n + 1 - b.length) (acc ++ b) with
            | mk r s2 =>
              rw [hres] at hrec
              cases r with
              | ok v => rfl
              | error k =>
                exfalso
                simp [hb] at hrec
          · unfold c6check
            rw [safe_read_loop, if_neg hb, if_neg hlen]
      | err k =>
        cases k with
        | interrupted =>
          have hrec := ih (n + 1) acc
          unfold c6check at hrec ⊢
          rw [safe_read_loop]
          cases hres : safe_read_loop rest (n + 1) acc with
          | mk r s2 =>
            rw [hres] at hrec
            cases r with
            | ok v => rfl
            | error k2 =>
              simp at hrec ⊢
              tauto
        | unexpectedEof =>
          unfold c6check
          rw [safe_read_loop]
        | invalidData =>
          unfold c6check
          rw [safe_read_loop]
          · by_cases hacc : acc = []
            · rw [if_pos hacc]
              simp [hacc]
            · rw [if_neg hacc]
          all_goals exact fun hx => IoErrorKind.noConfusion hx
        | other =>
          unfold c6check
          rw [safe_read_loop]
          · by_cases hacc : acc = []
            · rw [if_pos hacc]
              simp [hacc]
            · rw [if_neg hacc]
          all_goals exact fun hx => IoErrorKind.noConfusion hx

/-- A source that yields one byte and then fails with a hard error. -/
def c6Source : List Event := [.bytes [1], .err .other]

/-- C6: counterexample to the claim as stated. The source delivers one byte
    and then a non-interrupt hard error; the claim says that error must be
    surfaced to the caller regardless of how many bytes were already read,
    but safe_read swallows it and returns Ok with the single byte. -/
theorem C6_counterexample : safe_read c6Source 10 = (Except.ok [1], []) := by
  decide

/-- The relation C1 actually satisfies: whenever a get_packet run returns a
    packet, the end-of-stream flag of the resulting state equals whether
    that packet is an EndOfStream packet. -/
def eosOk : Option (Except RErr (Option OggPacket) × ReaderState) → Bool
  | some (.ok (some p), st2) =>
    st2.e_o_s == (if p.packet_type = .EndOfStream then true else false)
  | _ => true

/-- C1 (amended): the end-of-stream flag tracks the type of the most
    recently decoded page: every successful get_packet that returns a page
    sets it to true exactly when that page is an EndOfStream page — so a
    later non-EOS page resets the flag to false; it is not latched. -/
theorem C1_eos_follows_last_packet : ∀ (fuel : Nat) (st : ReaderState),
    eosOk (get_packet fuel st) = true := by
  intro fuel
  induction fuel with
  | zero => intro st; rfl
  | succ fuel ih =>
    intro st
    rw [get_packet]
    cases hfb : OggPacket.from_bytes st.cached_bytes 0 with
    | mk res plen =>
      cases res with
      | ok packet => simp [eosOk]
      | error e =>
        dsimp only
        by_cases hk : e.kind = .unexpectedEof
        · rw [if_pos hk]
          by_cases hes : st.e_o_s = true
          · rw [if_pos hes]
            rfl
          · rw [if_neg hes]
            cases hsr : safe_read st.reader (max plen READ_SIZE) with
            | mk r r2 =>
              cases r with
              | error k => rfl
              | ok readB =>
                dsimp only
                by_cases h1 : readB.length < max plen READ_SIZE
                · rw [if_pos h1]
                  by_cases h2 : st.e_o_f = false
                  · rw [if_pos h2]
                    exact ih _
                  · rw [if_neg h2]
                    by_cases h3 : readB.length = 0
                    · rw [if_pos h3]
                      rfl
                    · rw [if_neg h3]
                      rfl
                · rw [if_neg h1]
                  exact ih _
        · rw [if_neg hk]
          rfl

/-- Wire bytes of an empty EndOfStream page (stream 0, index 0). -/
def eosPageBytes : List Nat := OggPacket.into_bytes ⟨0, .EndOfStream, 0, 0, 0, 0, [], []⟩

/-- Wire bytes of an empty Continuation page (stream 0, index 1). -/
def contPageBytes : List Nat := OggPacket.into_bytes ⟨0, .Continuation, 0, 0, 1, 0, [], []⟩

/-- A fresh reader over a source holding an EndOfStream page followed by a
    Continuation page. -/
def c1Reader : ReaderState := OggStreamReader.new [.bytes (eosPageBytes ++ contPageBytes)]

/-- The reader state after the first get_packet call (which returns the
    EndOfStream page and latches the flag). -/
def c1AfterFirst : ReaderState :=
  match get_packet 2 c1Reader with
  | some (_, s) => s
  | none => c1Reader

/-- True exactly when a get_packet result is Ok with a packet. -/
def resOkSome : Except RErr (Option OggPacket) → Bool
  | .ok (some _) => true
  | _ => false

/-- C1: counterexample to the claim as stated. After the first call decodes
    the EndOfStream page (setting the flag), a second successful get_packet
    decodes the following Continuation page and resets the flag to false —
    the flag is not latched. -/
theorem C1_counterexample :
    c1AfterFirst.e_o_s = true ∧
    ((get_packet 1 c1AfterFirst).map fun r => (resOkSome r.1, r.2.e_o_s)) =
      some (true, false) := by
  decide

/-- The byte sink under the writer: a list of outcomes for the successive
    write_all calls (an empty list meaning every call succeeds) and the
    pages the sink has accepted so far. -/
structure SinkState where
  outcomes : List Bool
  written : List (List Nat)
deriving DecidableEq

/-- One write_all call on the sink: succeeds (recording the bytes) or fails
    with a hard io error, per the next scripted outcome. -/
def sinkWriteAll (s : SinkState) (b : List Nat) : Except IoErrorKind Unit × SinkState :=
  match s.outcomes with
  | [] => (.ok (), ⟨[], s.written ++ [b]⟩)
  | o :: rest =>
    if o then (.ok (), ⟨rest, s.written ++ [b]⟩)
    else (.error .other, ⟨rest, s.written⟩)

/-- The OggStreamWriter state. The on_seal closure is modelled as a pure
    function (its default is the identity on the byte count). -/
structure WriterState where
  sink : SinkState
  stream_id : Nat
  packet_index : Nat
  cur_packet : OggPacket
  granule_position : Nat
  on_seal : Nat → Nat
  bytes_written : Nat

/-- OggStreamWriter::new. -/
def OggStreamWriter.new (sink : SinkState) (stream_id : Nat) : WriterState :=
  ⟨sink, stream_id, 0, OggPacket.new stream_id .BeginOfStream 0, 0, fun i => i, 0⟩

/-- OggStreamWriter::seal_packet: increments packet_index (u32), stamps the
    granule position, retypes the page EndOfStream when asked, replaces
    cur_packet (mem::take leaves the Default packet after a terminating
    seal, mem::replace installs a fresh Continuation page at the new index
    otherwise), serializes the old page and passes it to the sink. -/
def seal_packet (st : WriterState) (granule_position : Nat) (is_end_of_stream : Bool) :
    Except IoErrorKind Unit × WriterState :=
  let pi := (st.packet_index + 1) % 2 ^ 32
  let cur := { st.cur_packet with granule_position := granule_position }
  let packed :=
    if is_end_of_stream then OggPacket.into_bytes { cur with packet_type := .EndOfStream }
    else OggPacket.into_bytes cur
  let newCur :=
    if is_end_of_stream then OggPacket.default
    else OggPacket.new st.stream_id .Continuation pi
  let st2 :=
    { st with
      packet_index := pi
      granule_position := granule_position
      cur_packet := newCur }
  match sinkWriteAll st2.sink packed with
  | (.ok _, s2) => (.ok (), { st2 with sink := s2 })
  | (.error e, s2) => (.error e, { st2 with sink := s2 })

/-- The Drop impl for OggStreamWriter: seal_packet(granule_position, true),
    followed in the Rust code by .unwrap() — an Err outcome of this
    function is precisely the case in which the Rust program panics during
    drop. -/
def drop_writer (st : WriterState) : Except IoErrorKind Unit × WriterState :=
  seal_packet st st.granule_position true

/-- The while loop of the Write impl for OggStreamWriter, with fuel (each
    iteration seals at most one full page; the Rust loop is bounded in
    practice but the embedding keeps an explicit bound). Feeds the buffer
    into the current page, sealing a Continuation page with the granule
    position obtained from on_seal whenever the page fills up before the
    buffer is exhausted. -/
def wwLoop : Nat → WriterState → List Nat → Nat → Option (Except IoErrorKind Nat × WriterState)
  | _, st, [], total => some (.ok total, st)
  | 0, _, _ :: _, _ => none
  | fuel + 1, st, buf, total =>
    match OggPacket.write st.cur_packet buf with
    | (p2, w) =>
      let st2 := { st with cur_packet := p2 }
      let buf2 := buf.drop w
      let total2 := total + w
      if buf2.isEmpty then some (.ok total2, st2)
      else
        let g := st2.on_seal p2.get_inner_data_size
        let st3 := { st2 with granule_position := g }
        match seal_packet st3 g false with
        | (.error e, st4) => some (.error e, st4)
        | (.ok _, st4) => wwLoop fuel st4 buf2 total2

/-- The Write impl for OggStreamWriter: the first statement overwrites
    bytes_written with the length of the buffer of this call, then the loop
    runs. -/
def writer_write (fuel : Nat) (st : WriterState) (buf : List Nat) :
    Option (Except IoErrorKind Nat × WriterState) :=
  wwLoop fuel { st with bytes_written := buf.length } buf 0

/-- True exactly on the Ok constructor of an io result. -/
def ioOk {α : Type} (r : Except IoErrorKind α) : Bool :=
  match r with
  | .ok _ => true
  | .error _ => false

/-- A fresh writer over a sink whose first (and only) write_all fails. -/
def c2Writer : WriterState := OggStreamWriter.new ⟨[false], []⟩ 3

/-- C2: the implicit finalization failure is escalated. When the writer is
    dropped over a sink whose write_all fails, the final seal attempted by
    the Drop impl returns an Err — and the Rust code calls .unwrap() on it,
    turning the io failure into a panic inside drop (process-fatal);
    nothing was written to the sink. There is also no close() method that
    could surface the failure instead. -/
theorem C2_drop_seal_fails :
    ioOk (drop_writer c2Writer).1 = false ∧ (drop_writer c2Writer).2.sink.written = [] := by
  decide

/-- A fresh writer over an always-succeeding sink. -/
def c3Writer : WriterState := OggStreamWriter.new ⟨[], []⟩ 5

/-- The writer right after an explicit terminating seal. -/
def c3AfterSeal : WriterState := (seal_packet c3Writer 7 true).2

/-- The writer after its automatic teardown (the Drop impl) follows the
    explicit terminating seal. -/
def c3AfterDrop : WriterState := (drop_writer c3AfterSeal).2

/-- Number of EndOfStream pages among the wire pages a sink received (byte
    5 of a serialized page is the packet type code, 4 = EndOfStream). -/
def countEosPages (pages : List (List Nat)) : Nat :=
  pages.countP (fun pg => byteAt pg 5 == 4)

/-- C3: counterexample behaviour at a concrete run. After seal_packet with
    is_end_of_stream = true, the writer still holds a fresh page (the
    Default BeginOfStream page left by mem::take, at packet_index 0 and
    stream_id 0), and the unconditional re-seal in the Drop impl writes a
    second EndOfStream page to the sink — two EOS pages over the
    lifetime, against the exactly-one finalization contract. -/
theorem C3_double_eos :
    c3AfterSeal.cur_packet = OggPacket.default ∧
    countEosPages c3AfterDrop.sink.written = 2 := by
  decide

/-- A fresh writer over an always-succeeding sink. -/
def c5Writer : WriterState := OggStreamWriter.new ⟨[], []⟩ 1

/-- The writer after a first write call with a 3-byte buffer. -/
def c5AfterFirst : WriterState :=
  match writer_write 1 c5Writer [1, 2, 3] with
  | some (_, s) => s
  | none => c5Writer

/-- C5: counterexample behaviour at a concrete run. bytes_written is
    assigned, not accumulated: after writing a 3-byte buffer and then a
    1-byte buffer, it holds 1 (the length of the last buffer), not the
    cumulative 4 the claim requires. -/
theorem C5_bytes_written_overwritten :
    c5AfterFirst.bytes_written = 3 ∧
    ((writer_write 1 c5AfterFirst [4]).map fun r => r.2.bytes_written) = some 1 := by
  decide

end TinyOgg
